import Mathlib

/-!
Go-Grep: a shallow embedding of `main.go`.

The program walks a directory, starts one `CheckFile` goroutine per `.txt`
file, and a single aggregator goroutine prints what the scanners send on an
unbuffered channel.

The operating system and the Go standard library are not part of the
repository; they enter the embedding through `Env`, a record of the answers
they give to the calls the program makes (`regexp.Compile`, `os.Open` with
`bufio.Scanner`, `filepath.Walk`, `filepath.Rel`).  Everything the program
itself does (the walk callbacks, the scan loop, the aggregator loop body, the
wait-group / close / done protocol) is translated from the source.
-/

namespace GoGrep

/-! ## Data model -/

/-- Result message of a file scanner (`type MatchResult struct`).  `Error` is
`none` for Go's `nil`; a field the source leaves out of a struct literal has
its zero value (`0`, `""`, `nil`).  `LineNumber` is a Go `int` (64 bits on
the 64-bit platforms) that only ever holds the scan loop's counter, which
starts at zero and grows by one per line read, so it is a natural number here
(a file would need `2^63` lines to wrap it). -/
structure MatchResult where
  Filename : String
  LineNumber : Nat
  MatchedLine : String
  Error : Option String
deriving DecidableEq

/-- What `os.Open(path)` followed by a `bufio.Scanner` over the file delivers
once opening succeeded: the texts `scanner.Text()` returns for the calls of
`scanner.Scan()` that answer `true`, then `scanner.Err()`.  When scanning
fails (a read error, or a line too long for the scanner), `unread` holds the
lines of the file from the point of failure on, which the scanner never hands
out; it is empty when `err` is `none`.  The program sees `lines` and `err`
only. -/
structure Scanned where
  lines : List String
  err : Option String
  unread : List String := []
deriving DecidableEq

/-- One call `filepath.Walk` makes to its callback: `fn(path, info, err)`,
with `info.IsDir()` for `isDir`. -/
structure Visit where
  path : String
  isDir : Bool
  err : Option String
deriving DecidableEq

/-- The answers of the world outside the program.

* `compile p` is `regexp.Compile(p)`: an error text, or the matcher
  `regex.MatchString`;
* `osOpen path` is `os.Open(path)`: an error text, or what scanning the file
  yields;
* `walk n dir` is the sequence of callback invocations of the `n`-th
  `filepath.Walk(dir, fn)` call of the run (`n = 0, 1`) for a callback that
  answers `nil`; the callback of the source answers non-`nil` only when it is
  handed an error, and then the walk stops;
* `rel base target` is `filepath.Rel(base, target)`. -/
structure Env where
  compile : String → Except String (String → Bool)
  osOpen : String → Except String Scanned
  walk : Nat → String → List Visit
  rel : String → String → Except String String

/-! ## `filepath.Ext` -/

/-- Loop of `filepath.Ext`, run over the reversed path: `acc` holds the bytes
already passed (in path order).  Stops at a separator with no extension. -/
def extLoop : List Char → List Char → List Char
  | [], _ => []
  | c :: before, acc =>
    if c = '/' then []
    else if c = '.' then c :: acc
    else extLoop before (c :: acc)

/-- Go's `filepath.Ext`: the suffix beginning at the last dot of the last
element of the path, empty when there is none. -/
def Ext (path : String) : String :=
  String.mk (extLoop path.data.reverse [])

/-! ## `CheckFile` -/

/-- The observable actions of a `CheckFile` call, in program order: opening
the file, and sending a result on the channel. -/
inductive Event where
  | opened (filename : String)
  | sent (r : MatchResult)
deriving DecidableEq

/-- The `for scanner.Scan()` loop of `CheckFile`: `lineNum` is the counter
before the line is read. -/
def scanLoop (filename : String) (regex : String → Bool) :
    List String → Nat → List Event
  | [], _ => []
  | line :: rest, lineNum =>
    if regex line then
      Event.sent { Filename := filename, LineNumber := lineNum + 1,
                   MatchedLine := line, Error := none }
        :: scanLoop filename regex rest (lineNum + 1)
    else scanLoop filename regex rest (lineNum + 1)

/-- The final `if err := scanner.Err(); err != nil` of `CheckFile`. -/
def scanErr (filename : String) : Option String → List Event
  | some err => [Event.sent { Filename := filename, LineNumber := 0, MatchedLine := "",
                              Error := some ("error reading file: " ++ err) }]
  | none => []

/-- The body of `CheckFile(filename, pattern, ch, wg)` as the trace of its
opens and sends (the deferred `wg.Done()` is the step that follows the trace
in the goroutine model below). -/
def CheckFile (env : Env) (filename pattern : String) : List Event :=
  match env.compile pattern with
  | .error err =>
    [Event.sent { Filename := filename, LineNumber := 0, MatchedLine := "",
                  Error := some ("invalid pattern: " ++ err) }]
  | .ok regex =>
    match env.osOpen filename with
    | .error err =>
      [Event.opened filename,
       Event.sent { Filename := filename, LineNumber := 0, MatchedLine := "",
                    Error := some ("error opening file: " ++ err) }]
    | .ok file =>
      Event.opened filename :: (scanLoop filename regex file.lines 0 ++ scanErr filename file.err)

/-- The results a trace sends on the channel, in order. -/
def sends : List Event → List MatchResult
  | [] => []
  | Event.sent r :: rest => r :: sends rest
  | Event.opened _ :: rest => sends rest

/-- The files a trace opens, in order. -/
def opens : List Event → List String
  | [] => []
  | Event.opened f :: rest => f :: opens rest
  | Event.sent _ :: rest => opens rest

/-! ## The aggregator -/

/-- One `fmt.Printf` of the aggregator goroutine, with its arguments. -/
inductive Output where
  | errorLine (filename err : String)
  | matchBlock (relPath : String) (lineNumber : Nat) (text : String)
deriving DecidableEq

/-- The text a `Printf` of the aggregator writes. -/
def Output.render : Output → String
  | .errorLine filename err => "Error in file " ++ filename ++ ": " ++ err ++ "\n"
  | .matchBlock relPath n text =>
    "\nMatch found in: " ++ relPath ++ "\nLine " ++ toString n ++ ": " ++ text ++ "\n"

/-- The `relPath` of the aggregator: `filepath.Rel(".", result.Filename)`,
the file name itself when that fails. -/
def relPath (env : Env) (filename : String) : String :=
  match env.rel "." filename with
  | .ok p => p
  | .error _ => filename

/-- Body of the aggregator loop `for result := range resultChan`: what it
prints for one received result. -/
def aggregate (env : Env) (result : MatchResult) : List Output :=
  match result.Error with
  | some err => [Output.errorLine result.Filename err]
  | none =>
    if result.MatchedLine ≠ "" then
      [Output.matchBlock (relPath env result.Filename) result.LineNumber result.MatchedLine]
    else []

/-! ## `SearchDirectory`: the goroutines -/

/-- The callback test `!info.IsDir() && filepath.Ext(path) == ".txt"`. -/
def qualifies (v : Visit) : Bool :=
  !v.isDir && Ext v.path == ".txt"

/-- First `filepath.Walk` of `SearchDirectory`: the callback counts the
qualifying files and hands an error back, which ends the walk. -/
def countFiles : List Visit → Nat → Except String Nat
  | [], fileCount => .ok fileCount
  | v :: rest, fileCount =>
    match v.err with
    | some err => .error err
    | none => if qualifies v then countFiles rest (fileCount + 1) else countFiles rest fileCount

/-- A `CheckFile` goroutine: the file it was started on, the results it has
still to send, and whether it has returned (its deferred `wg.Done()` ran). -/
structure Worker where
  filename : String
  pending : List MatchResult
  exited : Bool
deriving DecidableEq

/-- Where the goroutine that runs `SearchDirectory` stands: inside the second
`filepath.Walk` with the visits still to come, at `wg.Wait()`, at
`close(resultChan)`, at `<-done`, returned at the end of the function, or
returned after `Error walking directory`. -/
inductive MainPc where
  | walking (todo : List Visit)
  | waiting
  | closing
  | awaitingDone
  | returned
  | walkFailed
deriving DecidableEq

/-- Where the aggregator goroutine stands: not yet started, in its
`for result := range resultChan` loop, at `done <- true`, or finished. -/
inductive AggPc where
  | notStarted
  | ranging
  | signalling
  | exited
deriving DecidableEq

/-- State of one run of `SearchDirectory`.  `pattern` is the argument the walk
callback hands to each `CheckFile`, `wg` is the wait-group counter,
`closes` counts the executed `close(resultChan)`, `received` lists what the
aggregator took from the channel and `stdout` what it printed; `panicked`
records a run-time panic (send on a closed channel, close of a closed channel,
negative wait-group counter). -/
structure State where
  pattern : String
  workers : List Worker
  wg : Nat
  closes : Nat
  agg : AggPc
  main : MainPc
  received : List MatchResult
  stdout : List Output
  panicked : Bool
deriving DecidableEq

/-- A scheduling choice: which goroutine takes its next step. -/
inductive Action where
  | main
  | agg
  | worker (i : Nat)
deriving DecidableEq

/-- Next step of the goroutine running `SearchDirectory`, `none` while it is
blocked or after it returned. -/
def stepMain (env : Env) (s : State) : Option State :=
  match s.main with
  | .walking [] =>
    -- the walk returned nil: `go func() { ... }()`, then on to `wg.Wait()`
    some { s with main := .waiting, agg := .ranging }
  | .walking (v :: rest) =>
    match v.err with
    | some _ => some { s with main := .walkFailed }
    | none =>
      if qualifies v then
        -- `wg.Add(1)`; `go CheckFile(path, pattern, resultChan, &wg)`
        some { s with
          workers := s.workers ++
            [{ filename := v.path, pending := sends (CheckFile env v.path s.pattern),
               exited := false }]
          wg := s.wg + 1
          main := .walking rest }
      else some { s with main := .walking rest }
  | .waiting => if s.wg = 0 then some { s with main := .closing } else none
  | .closing =>
    if s.closes = 0 then some { s with closes := s.closes + 1, main := .awaitingDone }
    else some { s with panicked := true }
  | .awaitingDone =>
    -- `<-done` meets the aggregator's `done <- true`
    if s.agg = .signalling then some { s with main := .returned, agg := .exited } else none
  | .returned => none
  | .walkFailed => none

/-- Next step the aggregator takes on its own: leaving the `range` loop once
the channel is closed (it is unbuffered, so nothing is left in it).  Receiving
is part of the sender's step. -/
def stepAgg (s : State) : Option State :=
  match s.agg with
  | .ranging => if s.closes = 0 then none else some { s with agg := .signalling }
  | _ => none

/-- Next step of the `i`-th `CheckFile` goroutine: its next send, which the
aggregator receives and prints, or its return with `wg.Done()`. -/
def stepWorker (env : Env) (s : State) (i : Nat) : Option State :=
  match s.workers[i]? with
  | none => none
  | some w =>
    if w.exited then none
    else match w.pending with
      | r :: rest =>
        if s.closes ≠ 0 then some { s with panicked := true }
        else if s.agg = .ranging then
          some { s with
            workers := s.workers.set i { w with pending := rest }
            received := s.received ++ [r]
            stdout := s.stdout ++ aggregate env r }
        else none
      | [] =>
        if s.wg = 0 then some { s with panicked := true }
        else some { s with workers := s.workers.set i { w with exited := true }, wg := s.wg - 1 }

/-- One scheduling step.  Nothing runs after a panic or after
`SearchDirectory` returned (the program prints `Search complete!` and
exits). -/
def step (env : Env) (s : State) (a : Action) : Option State :=
  if s.panicked then none
  else if s.main = .returned ∨ s.main = .walkFailed then none
  else match a with
    | .main => stepMain env s
    | .agg => stepAgg s
    | .worker i => stepWorker env s i

/-- Runs a schedule from a state; `none` when a chosen goroutine cannot step. -/
def exec (env : Env) : State → List Action → Option State
  | s, [] => some s
  | s, a :: rest =>
    match step env s a with
    | none => none
    | some t => exec env t rest

/-- State of `SearchDirectory(dir, pattern)` when the first walk is over:
returned if that walk failed, entering the second walk otherwise. -/
def SearchDirectory (env : Env) (dir pattern : String) : State :=
  match countFiles (env.walk 0 dir) 0 with
  | .error _ =>
    { pattern := pattern, workers := [], wg := 0, closes := 0, agg := .notStarted, main := .walkFailed,
      received := [], stdout := [], panicked := false }
  | .ok _ =>
    { pattern := pattern, workers := [], wg := 0, closes := 0, agg := .notStarted,
      main := .walking (env.walk 1 dir),
      received := [], stdout := [], panicked := false }

/-- The files the second walk starts a `CheckFile` goroutine on, in order. -/
def spawnList : List Visit → List String
  | [] => []
  | v :: rest =>
    match v.err with
    | some _ => []
    | none => if qualifies v then v.path :: spawnList rest else spawnList rest

/-- The visits of the second walk of `SearchDirectory(dir, pattern)`; there
is none when the first walk failed. -/
def secondWalk (env : Env) (dir : String) : List Visit :=
  match countFiles (env.walk 0 dir) 0 with
  | .error _ => []
  | .ok _ => env.walk 1 dir

/-- The visits the second walk has still to make. -/
def visitsLeft (s : State) : List Visit :=
  match s.main with
  | .walking todo => todo
  | _ => []

/-- The `CheckFile` goroutines that have not returned. -/
def running (ws : List Worker) : List Worker :=
  ws.filter fun w ↦ !w.exited

/-- What holds of the aggregator, the channel and the wait group at each
point of the goroutine running `SearchDirectory`. -/
def PcInv (s : State) : Prop :=
  match s.main with
  | .walking _ => s.agg = .notStarted ∧ s.closes = 0
  | .waiting => s.agg = .ranging ∧ s.closes = 0
  | .closing => s.agg = .ranging ∧ s.closes = 0 ∧ s.wg = 0
  | .awaitingDone => (s.agg = .ranging ∨ s.agg = .signalling) ∧ s.closes = 1 ∧ s.wg = 0
  | .returned => s.agg = .exited ∧ s.closes = 1 ∧ s.wg = 0
  | .walkFailed => s.agg = .notStarted ∧ s.closes = 0

/-- Invariant of the runs of `SearchDirectory` whose second walk is
`visits`. -/
structure Inv (env : Env) (visits : List Visit) (s : State) : Prop where
  noPanic : s.panicked = false
  wgCount : s.wg = (running s.workers).length
  exitedDone : ∀ w ∈ s.workers, w.exited = true → w.pending = []
  pc : PcInv s
  spawned : s.workers.map (·.filename) ++ spawnList (visitsLeft s) = spawnList visits
  perm : (s.received ++ s.workers.flatMap (·.pending)).Perm
    (s.workers.flatMap fun w ↦ sends (CheckFile env w.filename s.pattern))
  out : s.stdout = s.received.flatMap (aggregate env)

/-- Steps the goroutine running `SearchDirectory` has before it once the
walk is over. -/
def mainRank : MainPc → Nat
  | .walking _ => 4
  | .waiting => 3
  | .closing => 2
  | .awaitingDone => 1
  | .returned => 0
  | .walkFailed => 0

/-- Steps the aggregator has to take on its own. -/
def aggRank : AggPc → Nat
  | .notStarted => 1
  | .ranging => 1
  | .signalling => 0
  | .exited => 0

/-- A bound on the number of steps a run can still take: the visits and
spawns to come with the sends and returns they bring, the sends and returns of
the running goroutines, and the steps of the main and aggregator goroutines. -/
def workLeft (env : Env) (s : State) : Nat :=
  (visitsLeft s).length + (spawnList (visitsLeft s)).length +
    ((spawnList (visitsLeft s)).flatMap fun f ↦ sends (CheckFile env f s.pattern)).length +
    (s.workers.flatMap (·.pending)).length + (running s.workers).length +
    mainRank s.main + aggRank s.agg

/-- Both walks of `SearchDirectory(dir, _)` go through without an error. -/
def walkOk (env : Env) (dir : String) : Prop :=
  (∃ n, countFiles (env.walk 0 dir) 0 = .ok n) ∧ ∀ v ∈ env.walk 1 dir, v.err = none

/-! ## Sequential reference -/

/-- Scanning the files one at a time, in sequence, each result going to the
aggregator as soon as it is produced: the output of the aggregator. -/
def sequentialOutput (env : Env) (pattern : String) (files : List String) : List Output :=
  (files.flatMap fun f ↦ sends (CheckFile env f pattern)).flatMap (aggregate env)

/-- The match results the specification describes for the lines a scanner
read: one for each line the matcher accepts, in file order, carrying the
1-based number of the line and its text. -/
def matchResults (filename : String) (regex : String → Bool) (lines : List String) :
    List MatchResult :=
  ((lines.enumFrom 1).filter fun p ↦ regex p.2).map fun p ↦
    { Filename := filename, LineNumber := p.1, MatchedLine := p.2, Error := none }

/-- The error result of a failed read, as the specification describes it. -/
def readError (filename err : String) : MatchResult :=
  { Filename := filename, LineNumber := 0, MatchedLine := "",
    Error := some ("error reading file: " ++ err) }

/-- The results of a sequence that carry no error. -/
def matchesOf (rs : List MatchResult) : List MatchResult :=
  rs.filter fun r ↦ r.Error.isNone

/-- Whether a print of the aggregator is a match block. -/
def isMatchBlock : Output → Bool
  | .matchBlock _ _ _ => true
  | .errorLine _ _ => false

/-- The path the specification describes for a match block: the file path
made relative to the search root, the literal path when that fails. -/
def rootRelPath (env : Env) (dir filename : String) : String :=
  match env.rel dir filename with
  | .ok p => p
  | .error _ => filename

/-! ## A concrete world -/

/-- Drops one trailing carriage return, as `bufio.ScanLines` does. -/
def dropCR (l : List Char) : List Char :=
  if l.getLast? = some '\r' then l.dropLast else l

/-- The tokens of `bufio.ScanLines` over a byte sequence with every line
shorter than the scanner's buffer: `cur` is the current line, reversed. -/
def scanLinesAux : List Char → List Char → List String
  | [], cur => if cur = [] then [] else [String.mk (dropCR cur.reverse)]
  | c :: cs, cur =>
    if c = '\n' then String.mk (dropCR cur.reverse) :: scanLinesAux cs []
    else scanLinesAux cs (c :: cur)

/-- Lines of a file content as `bufio.Scanner` hands them out. -/
def scanLines (content : String) : List String :=
  scanLinesAux content.data []

/-- Whether `needle` starts `hay`. -/
def startsWith : List Char → List Char → Bool
  | [], _ => true
  | _ :: _, [] => false
  | a :: as, b :: bs => a == b && startsWith as bs

/-- Whether `needle` occurs in `hay`. -/
def contains (needle : List Char) : List Char → Bool
  | [] => needle.isEmpty
  | c :: cs => startsWith needle (c :: cs) || contains needle cs

/-- A regular-expression engine for the patterns the examples use (`foo`,
the empty pattern, `(`): a pattern of letters and digits only, the empty
pattern included, compiles to the search for that text inside the line, as it
does in Go; any other pattern is refused with the error Go gives for `(`, the
one such pattern the examples use. -/
def literalCompile (pattern : String) : Except String (String → Bool) :=
  if pattern.data.all Char.isAlphanum then .ok fun line ↦ contains pattern.data line.data
  else .error ("error parsing regexp: missing closing ): `" ++ pattern ++ "`")

/-- Relative paths for the examples: what `filepath.Rel` answers on clean
slash-separated paths when the base is `.` (the target itself if it is
relative, an error if it is absolute) or when the target lies below the
base (the rest of the target). -/
def simpleRel (base target : String) : Except String String :=
  if base = "." then
    if target.data.head? = some '/' then .error "Rel: can't make path relative"
    else .ok target
  else if startsWith (base.data ++ ['/']) target.data then
    .ok (String.mk (target.data.drop (base.data.length + 1)))
  else .error "Rel: can't make path relative"

/-- A world from its directory listing and its files, with the example
engines for patterns and relative paths; both walks of a run see the same
listing. -/
def world (listing : String → List Visit) (files : String → Except String Scanned) : Env where
  compile := literalCompile
  osOpen := files
  walk := fun _ dir ↦ listing dir
  rel := simpleRel

/-- The single visit of a walk whose root does not exist. -/
def missingRoot (dir : String) : List Visit :=
  [{ path := dir, isDir := false, err := some ("lstat " ++ dir ++ ": no such file or directory") }]

/-- The directory of the specification's scenario, searched from inside it:
`a.txt` holds `hello`, `foo` and `b.txt` holds `foobar`. -/
def scenarioEnv : Env :=
  world
    (fun dir ↦
      if dir = "." then
        [{ path := ".", isDir := true, err := none },
         { path := "a.txt", isDir := false, err := none },
         { path := "b.txt", isDir := false, err := none }]
      else missingRoot dir)
    (fun path ↦
      if path = "a.txt" then .ok { lines := scanLines "hello\nfoo\n", err := none }
      else if path = "b.txt" then .ok { lines := scanLines "foobar\n", err := none }
      else .error ("open " ++ path ++ ": no such file or directory"))

/-- The scenario's directory with `b.txt` unreadable. -/
def lockedEnv : Env :=
  world
    (fun dir ↦
      if dir = "." then
        [{ path := ".", isDir := true, err := none },
         { path := "a.txt", isDir := false, err := none },
         { path := "b.txt", isDir := false, err := none }]
      else missingRoot dir)
    (fun path ↦
      if path = "a.txt" then .ok { lines := scanLines "hello\nfoo\n", err := none }
      else if path = "b.txt" then .error "open b.txt: permission denied"
      else .error ("open " ++ path ++ ": no such file or directory"))

/-- The scenario's directory without `b.txt`. -/
def aloneEnv : Env :=
  world
    (fun dir ↦
      if dir = "." then
        [{ path := ".", isDir := true, err := none },
         { path := "a.txt", isDir := false, err := none }]
      else missingRoot dir)
    (fun path ↦
      if path = "a.txt" then .ok { lines := scanLines "hello\nfoo\n", err := none }
      else .error ("open " ++ path ++ ": no such file or directory"))

/-- A directory whose only file `a.txt` starts with an empty line, followed
by `foo`. -/
def blankLineEnv : Env :=
  world
    (fun dir ↦
      if dir = "." then
        [{ path := ".", isDir := true, err := none },
         { path := "a.txt", isDir := false, err := none }]
      else missingRoot dir)
    (fun path ↦
      if path = "a.txt" then .ok { lines := scanLines "\nfoo\n", err := none }
      else .error ("open " ++ path ++ ": no such file or directory"))

/-- A directory `docs` below the working directory, holding `a.txt` with the
line `foo`. -/
def docsEnv : Env :=
  world
    (fun dir ↦
      if dir = "docs" then
        [{ path := "docs", isDir := true, err := none },
         { path := "docs/a.txt", isDir := false, err := none }]
      else missingRoot dir)
    (fun path ↦
      if path = "docs/a.txt" then .ok { lines := scanLines "foo\n", err := none }
      else .error ("open " ++ path ++ ": no such file or directory"))

/-- A file whose scanner fails after two lines. -/
def brokenEnv : Env :=
  world
    (fun dir ↦
      if dir = "." then
        [{ path := ".", isDir := true, err := none },
         { path := "a.txt", isDir := false, err := none }]
      else missingRoot dir)
    (fun path ↦
      if path = "a.txt" then .ok { lines := ["foo", "bar"], err := some "read a.txt: input/output error" }
      else .error ("open " ++ path ++ ": no such file or directory"))

/-- State in which a run ends that started a goroutine on each of `files`,
received `received` and printed `stdout`. -/
def endState (pattern : String) (files : List String) (received : List MatchResult)
    (stdout : List Output) : State :=
  { pattern := pattern
    workers := files.map fun f ↦ { filename := f, pending := [], exited := true }
    wg := 0, closes := 1, agg := .exited, main := .returned
    received := received, stdout := stdout, panicked := false }

/-- A schedule for two files with one send each: both walks, the second
goroutine sends first, then the first, then the shutdown. -/
def crossedRun : List Action :=
  [.main, .main, .main, .main, .worker 1, .worker 0, .worker 0, .worker 1,
   .main, .main, .agg, .main]

/-- A schedule for two files with one send each, one file after the other. -/
def inOrderRun : List Action :=
  [.main, .main, .main, .main, .worker 0, .worker 0, .worker 1, .worker 1,
   .main, .main, .agg, .main]

/-- A schedule for one file with one send. -/
def singleRun : List Action :=
  [.main, .main, .main, .worker 0, .worker 0, .main, .main, .agg, .main]

/-- A schedule for one file with two sends. -/
def doubleRun : List Action :=
  [.main, .main, .main, .worker 0, .worker 0, .worker 0, .main, .main, .agg, .main]

/-- End of `crossedRun` in the scenario with pattern `foo`. -/
def scenarioCrossedEnd : State :=
  endState "foo" ["a.txt", "b.txt"]
    [{ Filename := "b.txt", LineNumber := 1, MatchedLine := "foobar", Error := none },
     { Filename := "a.txt", LineNumber := 2, MatchedLine := "foo", Error := none }]
    [Output.matchBlock "b.txt" 1 "foobar", Output.matchBlock "a.txt" 2 "foo"]

/-- End of `inOrderRun` in the scenario with pattern `foo`. -/
def scenarioEnd : State :=
  endState "foo" ["a.txt", "b.txt"]
    [{ Filename := "a.txt", LineNumber := 2, MatchedLine := "foo", Error := none },
     { Filename := "b.txt", LineNumber := 1, MatchedLine := "foobar", Error := none }]
    [Output.matchBlock "a.txt" 2 "foo", Output.matchBlock "b.txt" 1 "foobar"]

/-- End of `inOrderRun` with `b.txt` unreadable. -/
def lockedEnd : State :=
  endState "foo" ["a.txt", "b.txt"]
    [{ Filename := "a.txt", LineNumber := 2, MatchedLine := "foo", Error := none },
     { Filename := "b.txt", LineNumber := 0, MatchedLine := "",
       Error := some "error opening file: open b.txt: permission denied" }]
    [Output.matchBlock "a.txt" 2 "foo",
     Output.errorLine "b.txt" "error opening file: open b.txt: permission denied"]

/-- End of `singleRun` without `b.txt`. -/
def aloneEnd : State :=
  endState "foo" ["a.txt"]
    [{ Filename := "a.txt", LineNumber := 2, MatchedLine := "foo", Error := none }]
    [Output.matchBlock "a.txt" 2 "foo"]

/-- End of `doubleRun` over the file with the empty line, empty pattern. -/
def blankLineEnd : State :=
  endState "" ["a.txt"]
    [{ Filename := "a.txt", LineNumber := 1, MatchedLine := "", Error := none },
     { Filename := "a.txt", LineNumber := 2, MatchedLine := "foo", Error := none }]
    [Output.matchBlock "a.txt" 2 "foo"]

/-- End of `singleRun` over `docs`. -/
def docsEnd : State :=
  endState "foo" ["docs/a.txt"]
    [{ Filename := "docs/a.txt", LineNumber := 1, MatchedLine := "foo", Error := none }]
    [Output.matchBlock "docs/a.txt" 1 "foo"]

/-- The scenario half way through `crossedRun`: both goroutines started, the
second has sent its match. -/
def scenarioHalf : State :=
  { pattern := "foo"
    workers :=
      [{ filename := "a.txt"
         pending := [{ Filename := "a.txt", LineNumber := 2, MatchedLine := "foo",
                       Error := none }]
         exited := false },
       { filename := "b.txt", pending := [], exited := false }]
    wg := 2, closes := 0, agg := .ranging, main := .waiting
    received := [{ Filename := "b.txt", LineNumber := 1, MatchedLine := "foobar",
                   Error := none }]
    stdout := [Output.matchBlock "b.txt" 1 "foobar"]
    panicked := false }

theorem sends_append (xs ys : List Event) : sends (xs ++ ys) = sends xs ++ sends ys := by
  induction xs with
  | nil => rfl
  | cons e rest ih => cases e <;> simp [sends, ih]

theorem opens_append (xs ys : List Event) : opens (xs ++ ys) = opens xs ++ opens ys := by
  induction xs with
  | nil => rfl
  | cons e rest ih => cases e <;> simp [opens, ih]

theorem sends_scanLoop (filename : String) (regex : String → Bool) (lines : List String)
    (k : Nat) :
    sends (scanLoop filename regex lines k) =
      ((lines.enumFrom (k + 1)).filter fun p ↦ regex p.2).map fun p ↦
        { Filename := filename, LineNumber := p.1, MatchedLine := p.2, Error := none } := by
  induction lines generalizing k with
  | nil => rfl
  | cons line rest ih =>
    by_cases h : regex line = true
    · simp [scanLoop, h, sends, ih]
    · simp [scanLoop, h, sends, ih]

theorem sends_scanLoop_zero (filename : String) (regex : String → Bool) (lines : List String) :
    sends (scanLoop filename regex lines 0) = matchResults filename regex lines :=
  sends_scanLoop filename regex lines 0

theorem opens_scanLoop (filename : String) (regex : String → Bool) (lines : List String)
    (k : Nat) : opens (scanLoop filename regex lines k) = [] := by
  induction lines generalizing k with
  | nil => rfl
  | cons line rest ih =>
    by_cases h : regex line = true
    · simp [scanLoop, h, opens, ih]
    · simp [scanLoop, h, opens, ih]

theorem sends_scanErr (filename : String) (e : Option String) :
    sends (scanErr filename e) = (e.map (readError filename)).toList := by
  cases e <;> rfl

/-- What `CheckFile` sends when the pattern compiles and the file opens. -/
theorem sends_CheckFile_ok (env : Env) (filename pattern : String) (regex : String → Bool)
    (file : Scanned) (hP : env.compile pattern = .ok regex)
    (hF : env.osOpen filename = .ok file) :
    sends (CheckFile env filename pattern) =
      matchResults filename regex file.lines ++ (file.err.map (readError filename)).toList := by
  simp [CheckFile, hP, hF, sends, sends_append, sends_scanLoop_zero, sends_scanErr]

theorem matchResults_props (filename : String) (regex : String → Bool) (lines : List String)
    (k : Nat) :
    ∀ r ∈ ((lines.enumFrom (k + 1)).filter fun p ↦ regex p.2).map (fun p ↦
        ({ Filename := filename, LineNumber := p.1, MatchedLine := p.2, Error := none } : MatchResult)),
      r.Filename = filename ∧ r.Error = none ∧ k + 1 ≤ r.LineNumber ∧
        lines[r.LineNumber - (k + 1)]? = some r.MatchedLine ∧ regex r.MatchedLine = true := by
  intro r hr
  simp only [List.mem_map, List.mem_filter] at hr
  obtain ⟨⟨i, line⟩, ⟨hmem, hre⟩, rfl⟩ := hr
  have := List.mem_enumFrom hmem
  refine ⟨rfl, rfl, this.1, ?_, hre⟩
  simp only
  obtain ⟨h1, h2, h3⟩ := this
  rw [h3]
  simp [List.getElem?_eq_getElem, h2]

theorem enumFrom_pairwise (lines : List String) (k : Nat) :
    (lines.enumFrom k).Pairwise fun a b ↦ a.1 < b.1 := by
  induction lines generalizing k with
  | nil => simp
  | cons line rest ih =>
    rw [List.enumFrom_cons, List.pairwise_cons]
    refine ⟨?_, ih (k + 1)⟩
    intro p hp
    obtain ⟨i, l⟩ := p
    have := (List.mem_enumFrom hp).1
    simp only
    omega

theorem matchResults_pairwise (filename : String) (regex : String → Bool)
    (lines : List String) :
    (matchResults filename regex lines).Pairwise fun a b ↦ a.LineNumber < b.LineNumber := by
  unfold matchResults
  rw [List.pairwise_map]
  exact (enumFrom_pairwise lines 1).filter _

theorem mem_matchResults (filename : String) (regex : String → Bool) (lines : List String)
    (r : MatchResult) (hr : r ∈ matchResults filename regex lines) :
    r.Filename = filename ∧ r.Error = none ∧ 1 ≤ r.LineNumber ∧
      lines[r.LineNumber - 1]? = some r.MatchedLine ∧ regex r.MatchedLine = true :=
  matchResults_props filename regex lines 0 r hr

theorem matchesOf_matchResults (filename : String) (regex : String → Bool)
    (lines : List String) :
    matchesOf (matchResults filename regex lines) = matchResults filename regex lines := by
  unfold matchesOf
  rw [List.filter_eq_self]
  intro r hr
  simp [(mem_matchResults filename regex lines r hr).2.1]

theorem matchesOf_sends_ok (env : Env) (filename pattern : String) (regex : String → Bool)
    (file : Scanned) (hP : env.compile pattern = .ok regex)
    (hF : env.osOpen filename = .ok file) :
    matchesOf (sends (CheckFile env filename pattern)) = matchResults filename regex file.lines := by
  rw [sends_CheckFile_ok env filename pattern regex file hP hF]
  unfold matchesOf
  rw [List.filter_append]
  have h1 := matchesOf_matchResults filename regex file.lines
  unfold matchesOf at h1
  rw [h1]
  cases file.err <;> simp [readError]

/-- C7: for a pattern that compiles and a file that opens, the match results one
`CheckFile` run sends have strictly increasing line numbers, each at least 1, and each
is the 1-based index in the file of the line the result carries. -/
theorem checkFile_line_numbers_increasing (env : Env) (filename pattern : String)
    (regex : String → Bool) (file : Scanned)
    (hP : env.compile pattern = .ok regex) (hF : env.osOpen filename = .ok file) :
    ((matchesOf (sends (CheckFile env filename pattern))).map (·.LineNumber)).Pairwise (· < ·) ∧
    ∀ r ∈ matchesOf (sends (CheckFile env filename pattern)),
      1 ≤ r.LineNumber ∧ file.lines[r.LineNumber - 1]? = some r.MatchedLine := by
  rw [matchesOf_sends_ok env filename pattern regex file hP hF]
  refine ⟨?_, ?_⟩
  · rw [List.pairwise_map]
    exact matchResults_pairwise filename regex file.lines
  · intro r hr
    have := mem_matchResults filename regex file.lines r hr
    exact ⟨this.2.2.1, this.2.2.2.1⟩

/-- C8: whatever happens in a `CheckFile` run, what it sends is a sequence of
results without error followed by at most one error result; and when the scanner
reports a read error after the lines it delivered, the run sends exactly the match
results of the accepted lines among those, in order, and then that one error. -/
theorem checkFile_error_is_last (env : Env) (filename pattern : String) :
    (∃ ms es, sends (CheckFile env filename pattern) = ms ++ es ∧
        (∀ r ∈ ms, r.Error = none) ∧ (∀ r ∈ es, r.Error ≠ none) ∧ es.length ≤ 1) ∧
    (∀ regex file e, env.compile pattern = .ok regex → env.osOpen filename = .ok file →
        file.err = some e →
        sends (CheckFile env filename pattern) =
          matchResults filename regex file.lines ++ [readError filename e]) := by
  constructor
  · cases hP : env.compile pattern with
    | error err =>
      exact ⟨[], sends (CheckFile env filename pattern), by simp, by simp,
        by simp [CheckFile, hP, sends], by simp [CheckFile, hP, sends]⟩
    | ok regex =>
      cases hF : env.osOpen filename with
      | error err =>
        exact ⟨[], sends (CheckFile env filename pattern), by simp, by simp,
          by simp [CheckFile, hP, hF, sends], by simp [CheckFile, hP, hF, sends]⟩
      | ok file =>
        refine ⟨matchResults filename regex file.lines,
          (file.err.map (readError filename)).toList,
          sends_CheckFile_ok env filename pattern regex file hP hF, ?_, ?_, ?_⟩
        · intro r hr
          exact (mem_matchResults filename regex file.lines r hr).2.1
        · cases file.err <;> simp [readError]
        · cases file.err <;> simp
  · intro regex file e hP hF he
    rw [sends_CheckFile_ok env filename pattern regex file hP hF, he]
    rfl

/-- C9: every result `CheckFile` sends is either a match (no error, a line number of
at least 1, and the text of the line of the file with that number) or an error (an
error, line number 0, empty text), and never both. -/
theorem checkFile_match_or_error (env : Env) (filename pattern : String) (r : MatchResult)
    (hr : r ∈ sends (CheckFile env filename pattern)) :
    ((r.Error = none ∧ 1 ≤ r.LineNumber ∧
        ∃ file, env.osOpen filename = .ok file ∧
          file.lines[r.LineNumber - 1]? = some r.MatchedLine) ∨
      (r.Error ≠ none ∧ r.LineNumber = 0 ∧ r.MatchedLine = "")) ∧
    ¬ ((r.Error = none ∧ 1 ≤ r.LineNumber) ∧
      (r.Error ≠ none ∧ r.LineNumber = 0 ∧ r.MatchedLine = "")) := by
  refine ⟨?_, fun h ↦ h.2.1 h.1.1⟩
  cases hP : env.compile pattern with
  | error err =>
    simp [CheckFile, hP, sends] at hr
    subst hr
    right; simp
  | ok regex =>
    cases hF : env.osOpen filename with
    | error err =>
      simp [CheckFile, hP, hF, sends] at hr
      subst hr
      right; simp
    | ok file =>
      rw [sends_CheckFile_ok env filename pattern regex file hP hF, List.mem_append] at hr
      rcases hr with hr | hr
      · have := mem_matchResults filename regex file.lines r hr
        left
        exact ⟨this.2.1, this.2.2.1, file, rfl, this.2.2.2.1⟩
      · right
        cases he : file.err with
        | none => simp [he] at hr
        | some e =>
          simp [he] at hr
          subst hr
          simp [readError]

/-! ## Lists of workers -/

theorem map_set_same {β : Type} (f : Worker → β) (l : List Worker) (i : Nat) (w w' : Worker)
    (h : l[i]? = some w) (hf : f w' = f w) : (l.set i w').map f = l.map f := by
  induction l generalizing i with
  | nil => simp
  | cons a l ih =>
    cases i with
    | zero =>
      simp at h
      subst h
      simp [hf]
    | succ i =>
      simp at h
      simp [ih i h]

theorem flatMap_set_same {β : Type} (f : Worker → List β) (l : List Worker) (i : Nat)
    (w w' : Worker) (h : l[i]? = some w) (hf : f w' = f w) :
    (l.set i w').flatMap f = l.flatMap f := by
  rw [List.flatMap_def, List.flatMap_def, map_set_same f l i w w' h hf]

theorem pending_set_perm (l : List Worker) (i : Nat) (w : Worker) (r : MatchResult)
    (rest : List MatchResult) (h : l[i]? = some w) (hp : w.pending = r :: rest) :
    (r :: (l.set i { w with pending := rest }).flatMap (·.pending)).Perm
      (l.flatMap (·.pending)) := by
  induction l generalizing i with
  | nil => simp at h
  | cons a l ih =>
    cases i with
    | zero =>
      simp at h
      subst h
      simp [hp]
    | succ i =>
      simp at h
      simp only [List.set_cons_succ, List.flatMap_cons]
      exact (List.perm_middle.symm).trans ((ih i h).append_left _)

theorem running_set_same (l : List Worker) (i : Nat) (w w' : Worker)
    (h : l[i]? = some w) (he : w'.exited = w.exited) :
    (running (l.set i w')).length = (running l).length := by
  induction l generalizing i with
  | nil => simp
  | cons a l ih =>
    cases i with
    | zero =>
      simp at h
      subst h
      simp only [running, List.set_cons_zero, List.filter_cons, he]
      split <;> simp
    | succ i =>
      simp at h
      have := ih i h
      simp only [running] at this ⊢
      simp only [List.set_cons_succ, List.filter_cons]
      split <;> simp [this]

theorem running_set_exited (l : List Worker) (i : Nat) (w w' : Worker)
    (h : l[i]? = some w) (hw : w.exited = false) (hw' : w'.exited = true) :
    (running (l.set i w')).length + 1 = (running l).length := by
  induction l generalizing i with
  | nil => simp at h
  | cons a l ih =>
    cases i with
    | zero =>
      simp at h
      subst h
      simp [running, List.filter_cons, hw, hw']
    | succ i =>
      simp at h
      have := ih i h
      simp only [running] at this ⊢
      simp only [List.set_cons_succ, List.filter_cons]
      split <;> simp [← this]

theorem mem_set_cases (l : List Worker) (i : Nat) (w' x : Worker)
    (hx : x ∈ l.set i w') : x = w' ∨ x ∈ l := by
  induction l generalizing i with
  | nil => simp at hx
  | cons a l ih =>
    cases i with
    | zero =>
      simp at hx
      rcases hx with hx | hx
      · exact Or.inl hx
      · exact Or.inr (List.mem_cons_of_mem _ hx)
    | succ i =>
      simp at hx
      rcases hx with hx | hx
      · exact Or.inr (by simp [hx])
      · rcases ih i hx with h | h
        · exact Or.inl h
        · exact Or.inr (List.mem_cons_of_mem _ h)

theorem running_eq_nil_of_length (l : List Worker) (h : (running l).length = 0) :
    ∀ w ∈ l, w.exited = true := by
  intro w hw
  by_contra hne
  have : w ∈ running l := by
    simp [running, hw, hne]
  have := List.length_pos_of_mem this
  omega

/-! ## The invariant holds along every run -/

theorem inv_init (env : Env) (dir pattern : String) :
    Inv env (secondWalk env dir) (SearchDirectory env dir pattern) := by
  unfold SearchDirectory secondWalk
  cases countFiles (env.walk 0 dir) 0 with
  | error e =>
    exact ⟨rfl, rfl, by simp, by simp [PcInv], by simp [visitsLeft, spawnList], by simp, rfl⟩
  | ok n =>
    exact ⟨rfl, rfl, by simp, by simp [PcInv], by simp [visitsLeft], by simp, rfl⟩

theorem inv_stepMain (env : Env) (visits : List Visit) (s t : State)
    (h : stepMain env s = some t) (hI : Inv env visits s) : Inv env visits t := by
  obtain ⟨hnp, hwg, hex, hpc, hsp, hperm, hout⟩ := hI
  unfold stepMain at h
  cases hm : s.main with
  | walking todo =>
    rw [hm] at h
    simp only [PcInv, hm] at hpc
    simp only [visitsLeft, hm] at hsp
    cases todo with
    | nil =>
      simp only [Option.some.injEq] at h
      subst h
      exact ⟨hnp, hwg, hex, by simp [PcInv, hpc.2], by simpa [visitsLeft] using hsp, hperm, hout⟩
    | cons v rest =>
      simp only at h
      cases hv : v.err with
      | some e =>
        rw [hv] at h
        simp only [Option.some.injEq] at h
        subst h
        refine ⟨hnp, hwg, hex, by simp [PcInv, hpc.1, hpc.2], ?_, hperm, hout⟩
        simpa [visitsLeft, spawnList, hv] using hsp
      | none =>
        rw [hv] at h
        simp only at h
        by_cases hq : qualifies v = true
        · rw [if_pos hq] at h
          simp only [Option.some.injEq] at h
          subst h
          refine ⟨hnp, ?_, ?_, by simp [PcInv, hpc.1, hpc.2], ?_, ?_, hout⟩
          · simp [running, List.filter_append, hwg]
          · intro w hw
            simp only [List.mem_append, List.mem_singleton] at hw
            rcases hw with hw | hw
            · exact hex w hw
            · subst hw
              simp
          · simpa [visitsLeft, spawnList, hv, hq] using hsp
          · simp only [List.flatMap_append, List.flatMap_cons, List.flatMap_nil,
              List.append_nil, ← List.append_assoc]
            exact hperm.append_right _
        · rw [if_neg hq] at h
          simp only [Option.some.injEq] at h
          subst h
          refine ⟨hnp, hwg, hex, by simp [PcInv, hpc.1, hpc.2], ?_, hperm, hout⟩
          simpa [visitsLeft, spawnList, hv, hq] using hsp
  | waiting =>
    rw [hm] at h
    simp only [PcInv, hm] at hpc
    simp only [visitsLeft, hm] at hsp
    by_cases hz : s.wg = 0
    · rw [if_pos hz] at h
      simp only [Option.some.injEq] at h
      subst h
      exact ⟨hnp, hwg, hex, by simp [PcInv, hpc.1, hpc.2, hz], by simpa [visitsLeft] using hsp,
        hperm, hout⟩
    · simp [hz] at h
  | closing =>
    rw [hm] at h
    simp only [PcInv, hm] at hpc
    simp only [visitsLeft, hm] at hsp
    rw [if_pos hpc.2.1] at h
    simp only [Option.some.injEq] at h
    subst h
    exact ⟨hnp, hwg, hex, by simp [PcInv, hpc.1, hpc.2.1, hpc.2.2],
      by simpa [visitsLeft] using hsp, hperm, hout⟩
  | awaitingDone =>
    rw [hm] at h
    simp only [PcInv, hm] at hpc
    simp only [visitsLeft, hm] at hsp
    by_cases hz : s.agg = .signalling
    · rw [if_pos hz] at h
      simp only [Option.some.injEq] at h
      subst h
      exact ⟨hnp, hwg, hex, by simp [PcInv, hpc.2.1, hpc.2.2], by simpa [visitsLeft] using hsp,
        hperm, hout⟩
    · simp [hz] at h
  | returned => rw [hm] at h; simp at h
  | walkFailed => rw [hm] at h; simp at h

theorem inv_stepAgg (env : Env) (visits : List Visit) (s t : State)
    (h : stepAgg s = some t) (hI : Inv env visits s) : Inv env visits t := by
  obtain ⟨hnp, hwg, hex, hpc, hsp, hperm, hout⟩ := hI
  unfold stepAgg at h
  cases ha : s.agg with
  | ranging =>
    rw [ha] at h
    by_cases hc : s.closes = 0
    · simp [hc] at h
    · rw [if_neg hc] at h
      simp only [Option.some.injEq] at h
      subst h
      refine ⟨hnp, hwg, hex, ?_, hsp, hperm, hout⟩
      unfold PcInv at hpc ⊢
      cases hm : s.main <;> simp only [hm] at hpc ⊢ <;> simp_all
  | notStarted => rw [ha] at h; simp at h
  | signalling => rw [ha] at h; simp at h
  | exited => rw [ha] at h; simp at h

theorem pcInv_congr (s t : State) (h1 : t.main = s.main) (h2 : t.agg = s.agg)
    (h3 : t.closes = s.closes) (h4 : t.wg = s.wg) (h : PcInv s) : PcInv t := by
  unfold PcInv at h ⊢
  rw [h1, h2, h3, h4]
  exact h

theorem inv_stepWorker (env : Env) (visits : List Visit) (s t : State) (i : Nat)
    (h : stepWorker env s i = some t) (hI : Inv env visits s) : Inv env visits t := by
  obtain ⟨hnp, hwg, hex, hpc, hsp, hperm, hout⟩ := hI
  unfold stepWorker at h
  cases hw : s.workers[i]? with
  | none => rw [hw] at h; simp at h
  | some w =>
    rw [hw] at h
    simp only at h
    have hmem : w ∈ s.workers := List.getElem?_mem hw
    by_cases hx : w.exited = true
    · simp [hx] at h
    · rw [if_neg hx] at h
      have hx' : w.exited = false := by simpa using hx
      cases hp : w.pending with
      | cons r rest =>
        rw [hp] at h
        simp only at h
        have hrun : w ∈ running s.workers := by simp [running, hmem, hx']
        have hpos : 0 < s.wg := by rw [hwg]; exact List.length_pos_of_mem hrun
        have hc : s.closes = 0 := by
          unfold PcInv at hpc
          cases hm : s.main <;> simp only [hm] at hpc <;> first | exact hpc.2 | exact hpc.2.1 | omega
        rw [if_neg (by simpa using hc)] at h
        by_cases hr : s.agg = .ranging
        · rw [if_pos hr] at h
          simp only [Option.some.injEq] at h
          subst h
          refine ⟨hnp, ?_, ?_, pcInv_congr s _ rfl rfl rfl rfl hpc, ?_, ?_, ?_⟩
          · simpa [running_set_same s.workers i w { w with pending := rest } hw rfl] using hwg
          · intro x hxm hxe
            rcases mem_set_cases _ _ _ _ hxm with hxw | hxw
            · subst hxw
              simp [hx'] at hxe
            · exact hex x hxw hxe
          · have : visitsLeft { s with
                workers := s.workers.set i { w with pending := rest }
                received := s.received ++ [r]
                stdout := s.stdout ++ aggregate env r } = visitsLeft s := rfl
            rw [this]
            simpa [map_set_same (·.filename) s.workers i w { w with pending := rest } hw rfl]
              using hsp
          · simp only
            rw [flatMap_set_same (fun w ↦ sends (CheckFile env w.filename s.pattern))
              s.workers i w { w with pending := rest } hw rfl]
            refine List.Perm.trans ?_ hperm
            rw [List.append_assoc]
            refine List.Perm.append_left _ ?_
            exact (pending_set_perm s.workers i w r rest hw hp)
          · simp [hout]
        · simp [hr] at h
      | nil =>
        rw [hp] at h
        simp only at h
        have hrun : w ∈ running s.workers := by simp [running, hmem, hx']
        have hpos : 0 < s.wg := by rw [hwg]; exact List.length_pos_of_mem hrun
        rw [if_neg (by omega)] at h
        simp only [Option.some.injEq] at h
        subst h
        have hmain : s.main = .waiting ∨ (∃ todo, s.main = .walking todo) ∨
            s.main = .walkFailed := by
          unfold PcInv at hpc
          cases hm : s.main <;> simp only [hm] at hpc <;> simp <;> omega
        refine ⟨hnp, ?_, ?_, ?_, ?_, ?_, hout⟩
        · have := running_set_exited s.workers i w
            { filename := w.filename, pending := [], exited := true } hw hx' rfl
          simp only
          omega
        · intro x hxm hxe
          rcases mem_set_cases _ _ _ _ hxm with hxw | hxw
          · subst hxw
            rfl
          · exact hex x hxw hxe
        · unfold PcInv at hpc ⊢
          rcases hmain with hm | ⟨todo, hm⟩ | hm <;> simp only [hm] at hpc ⊢ <;> exact hpc
        · have : visitsLeft { s with
              workers := s.workers.set i { filename := w.filename, pending := [], exited := true }
              wg := s.wg - 1 } = visitsLeft s := rfl
          rw [this]
          simpa [map_set_same (·.filename) s.workers i w
            { filename := w.filename, pending := [], exited := true } hw rfl] using hsp
        · simp only
          rw [flatMap_set_same (fun w ↦ sends (CheckFile env w.filename s.pattern))
            s.workers i w { filename := w.filename, pending := [], exited := true } hw rfl,
            flatMap_set_same (·.pending) s.workers i w
              { filename := w.filename, pending := [], exited := true } hw hp.symm]
          exact hperm

theorem step_pattern (env : Env) (s t : State) (a : Action) (h : step env s a = some t) :
    t.pattern = s.pattern := by
  unfold step at h
  split at h
  · simp at h
  · split at h
    · simp at h
    · cases a with
      | main =>
        simp only at h
        unfold stepMain at h
        repeat' split at h
        all_goals first | (simp at h; done) | (simp only [Option.some.injEq] at h; subst h; rfl)
      | agg =>
        simp only at h
        unfold stepAgg at h
        repeat' split at h
        all_goals first | (simp at h; done) | (simp only [Option.some.injEq] at h; subst h; rfl)
      | worker i =>
        simp only at h
        unfold stepWorker at h
        repeat' split at h
        all_goals first | (simp at h; done) | (simp only [Option.some.injEq] at h; subst h; rfl)

theorem inv_step (env : Env) (visits : List Visit) (s t : State) (a : Action)
    (h : step env s a = some t) (hI : Inv env visits s) : Inv env visits t := by
  unfold step at h
  split at h
  · simp at h
  · split at h
    · simp at h
    · cases a with
      | main => exact inv_stepMain env visits s t h hI
      | agg => exact inv_stepAgg env visits s t h hI
      | worker i => exact inv_stepWorker env visits s t i h hI

theorem inv_exec (env : Env) (visits : List Visit) (as : List Action) (s t : State)
    (h : exec env s as = some t) (hI : Inv env visits s) :
    Inv env visits t ∧ t.pattern = s.pattern := by
  induction as generalizing s with
  | nil =>
    simp only [exec, Option.some.injEq] at h
    subst h
    exact ⟨hI, rfl⟩
  | cons a rest ih =>
    simp only [exec] at h
    cases hs : step env s a with
    | none => rw [hs] at h; simp at h
    | some u =>
      rw [hs] at h
      have := ih u h (inv_step env visits s u a hs hI)
      exact ⟨this.1, this.2.trans (step_pattern env s u a hs)⟩

/-- Every state a run of `SearchDirectory` reaches satisfies the invariant. -/
theorem inv_reachable (env : Env) (dir pattern : String) (as : List Action) (s : State)
    (h : exec env (SearchDirectory env dir pattern) as = some s) :
    Inv env (secondWalk env dir) s ∧ s.pattern = pattern := by
  have := inv_exec env _ as _ s h (inv_init env dir pattern)
  refine ⟨this.1, this.2.trans ?_⟩
  unfold SearchDirectory
  cases countFiles (env.walk 0 dir) 0 <;> rfl

/-! ## Progress and termination -/

theorem exists_running_index (l : List Worker) (h : (running l).length ≠ 0) :
    ∃ (i : Nat) (w : Worker), l[i]? = some w ∧ w.exited = false := by
  have hne : running l ≠ [] := by
    intro h0
    simp [h0] at h
  obtain ⟨w, hw⟩ := List.exists_mem_of_ne_nil _ hne
  simp only [running, List.mem_filter] at hw
  obtain ⟨i, hi, hiw⟩ := List.getElem_of_mem hw.1
  exact ⟨i, w, by simp [List.getElem?_eq_getElem hi, hiw], by simpa using hw.2⟩

/-- A run that has not returned can take a step: no deadlock. -/
theorem progress (env : Env) (visits : List Visit) (s : State) (hI : Inv env visits s)
    (h1 : s.main ≠ .returned) (h2 : s.main ≠ .walkFailed) :
    ∃ a t, step env s a = some t := by
  obtain ⟨hnp, hwg, hex, hpc, hsp, hperm, hout⟩ := hI
  have hstep : ∀ a, step env s a = (match a with
      | .main => stepMain env s
      | .agg => stepAgg s
      | .worker i => stepWorker env s i) := by
    intro a
    unfold step
    rw [hnp]
    simp [h1, h2]
  unfold PcInv at hpc
  cases hm : s.main with
  | walking todo =>
    refine ⟨.main, ?_⟩
    rw [hstep]
    simp only [stepMain, hm]
    cases todo with
    | nil => exact ⟨_, rfl⟩
    | cons v rest =>
      simp only
      cases v.err with
      | some e => exact ⟨_, rfl⟩
      | none =>
        simp only
        split <;> exact ⟨_, rfl⟩
  | waiting =>
    simp only [hm] at hpc
    by_cases hz : s.wg = 0
    · refine ⟨.main, ?_⟩
      rw [hstep]
      simp only [stepMain, hm, if_pos hz]
      exact ⟨_, rfl⟩
    · obtain ⟨i, w, hiw, hwe⟩ := exists_running_index s.workers (by omega)
      refine ⟨.worker i, ?_⟩
      rw [hstep]
      simp only [stepWorker, hiw, hwe]
      cases w.pending with
      | nil =>
        simp only [Bool.false_eq_true, if_false, if_neg hz]
        exact ⟨_, rfl⟩
      | cons r rest =>
        simp only [Bool.false_eq_true, if_false, hpc.1, hpc.2, ne_eq, not_true_eq_false, if_true]
        exact ⟨_, rfl⟩
  | closing =>
    simp only [hm] at hpc
    refine ⟨.main, ?_⟩
    rw [hstep]
    simp only [stepMain, hm, if_pos hpc.2.1]
    exact ⟨_, rfl⟩
  | awaitingDone =>
    simp only [hm] at hpc
    rcases hpc.1 with ha | ha
    · refine ⟨.agg, ?_⟩
      rw [hstep]
      simp only [stepAgg, ha, hpc.2.1]
      exact ⟨_, rfl⟩
    · refine ⟨.main, ?_⟩
      rw [hstep]
      simp only [stepMain, hm, if_pos ha]
      exact ⟨_, rfl⟩
  | returned => exact absurd hm h1
  | walkFailed => exact absurd hm h2

theorem workLeft_stepMain (env : Env) (visits : List Visit) (s t : State)
    (h : stepMain env s = some t) (hI : Inv env visits s) :
    workLeft env t < workLeft env s := by
  obtain ⟨hnp, hwg, hex, hpc, hsp, hperm, hout⟩ := hI
  unfold stepMain at h
  unfold PcInv at hpc
  cases hm : s.main with
  | walking todo =>
    rw [hm] at h
    simp only [hm] at hpc
    cases todo with
    | nil =>
      simp only [Option.some.injEq] at h
      subst h
      simp [workLeft, visitsLeft, hm, mainRank, aggRank, hpc.1, spawnList]
    | cons v rest =>
      simp only at h
      cases hv : v.err with
      | some e =>
        rw [hv] at h
        simp only [Option.some.injEq] at h
        subst h
        simp only [workLeft, visitsLeft, hm, mainRank, spawnList, hv, List.length_cons,
          List.length_nil, List.flatMap_nil]
        omega
      | none =>
        rw [hv] at h
        simp only at h
        by_cases hq : qualifies v = true
        · rw [if_pos hq] at h
          simp only [Option.some.injEq] at h
          subst h
          have hr : ∀ w : Worker, w.exited = false →
              (running (s.workers ++ [w])).length = (running s.workers).length + 1 := by
            intro w hw
            simp [running, List.filter_append, hw]
          have hr := hr ⟨v.path, sends (CheckFile env v.path s.pattern), false⟩ rfl
          simp only [workLeft, visitsLeft, hm, mainRank, spawnList, hv, hq, if_true,
            List.length_cons, List.flatMap_cons, List.flatMap_append, List.flatMap_nil,
            List.length_append, List.append_nil, hr]
          omega
        · rw [if_neg hq] at h
          simp only [Option.some.injEq] at h
          subst h
          simp only [workLeft, visitsLeft, hm, mainRank, spawnList, hv, hq, List.length_cons]
          simp only [Bool.false_eq_true, if_false]
          omega
  | waiting =>
    rw [hm] at h
    by_cases hz : s.wg = 0
    · rw [if_pos hz] at h
      simp only [Option.some.injEq] at h
      subst h
      simp only [workLeft, visitsLeft, hm, mainRank]
      omega
    · simp [hz] at h
  | closing =>
    rw [hm] at h
    simp only [hm] at hpc
    rw [if_pos hpc.2.1] at h
    simp only [Option.some.injEq] at h
    subst h
    simp only [workLeft, visitsLeft, hm, mainRank]
    omega
  | awaitingDone =>
    rw [hm] at h
    by_cases hz : s.agg = .signalling
    · rw [if_pos hz] at h
      simp only [Option.some.injEq] at h
      subst h
      simp only [workLeft, visitsLeft, hm, mainRank, aggRank, hz]
      omega
    · simp [hz] at h
  | returned => rw [hm] at h; simp at h
  | walkFailed => rw [hm] at h; simp at h

theorem workLeft_stepAgg (env : Env) (s t : State) (h : stepAgg s = some t) :
    workLeft env t < workLeft env s := by
  unfold stepAgg at h
  cases ha : s.agg with
  | ranging =>
    rw [ha] at h
    by_cases hc : s.closes = 0
    · simp [hc] at h
    · rw [if_neg hc] at h
      simp only [Option.some.injEq] at h
      subst h
      have : visitsLeft { s with agg := AggPc.signalling } = visitsLeft s := rfl
      simp only [workLeft, this, aggRank, ha]
      omega
  | notStarted => rw [ha] at h; simp at h
  | signalling => rw [ha] at h; simp at h
  | exited => rw [ha] at h; simp at h

theorem workLeft_stepWorker (env : Env) (visits : List Visit) (s t : State) (i : Nat)
    (h : stepWorker env s i = some t) (hI : Inv env visits s) :
    workLeft env t < workLeft env s := by
  have hnp : t.panicked = false := (inv_stepWorker env visits s t i h hI).noPanic
  unfold stepWorker at h
  cases hw : s.workers[i]? with
  | none => rw [hw] at h; simp at h
  | some w =>
    rw [hw] at h
    simp only at h
    by_cases hx : w.exited = true
    · simp [hx] at h
    · rw [if_neg hx] at h
      have hx' : w.exited = false := by simpa using hx
      cases hp : w.pending with
      | cons r rest =>
        rw [hp] at h
        simp only at h
        split at h
        · simp only [Option.some.injEq] at h
          subst h
          simp at hnp
        · split at h
          · simp only [Option.some.injEq] at h
            subst h
            have hv : visitsLeft { s with
                workers := s.workers.set i { w with pending := rest }
                received := s.received ++ [r]
                stdout := s.stdout ++ aggregate env r } = visitsLeft s := rfl
            have h1 := (pending_set_perm s.workers i w r rest hw hp).length_eq
            have h2 := running_set_same s.workers i w { w with pending := rest } hw rfl
            simp only [List.length_cons] at h1
            simp only [workLeft, hv, h2]
            omega
          · simp at h
      | nil =>
        rw [hp] at h
        simp only at h
        split at h
        · simp only [Option.some.injEq] at h
          subst h
          simp at hnp
        · simp only [Option.some.injEq] at h
          subst h
          have hv : visitsLeft { s with
              workers := s.workers.set i { filename := w.filename, pending := [], exited := true }
              wg := s.wg - 1 } = visitsLeft s := rfl
          have h1 := running_set_exited s.workers i w
            { filename := w.filename, pending := [], exited := true } hw hx' rfl
          have h2 := flatMap_set_same (·.pending) s.workers i w
            { filename := w.filename, pending := [], exited := true } hw hp.symm
          simp only [workLeft, hv, h2]
          omega

/-- Every step of a run uses up some of the work left: runs are finite. -/
theorem workLeft_step (env : Env) (visits : List Visit) (s t : State) (a : Action)
    (h : step env s a = some t) (hI : Inv env visits s) :
    workLeft env t < workLeft env s := by
  unfold step at h
  split at h
  · simp at h
  · split at h
    · simp at h
    · cases a with
      | main => exact workLeft_stepMain env visits s t h hI
      | agg => exact workLeft_stepAgg env s t h
      | worker i => exact workLeft_stepWorker env visits s t i h hI

theorem exec_append (env : Env) (s t : State) (as bs : List Action)
    (h : exec env s as = some t) : exec env s (as ++ bs) = exec env t bs := by
  induction as generalizing s with
  | nil =>
    simp only [exec, Option.some.injEq] at h
    subst h
    rfl
  | cons a rest ih =>
    simp only [exec, List.cons_append] at h ⊢
    cases hs : step env s a with
    | none => rw [hs] at h; simp at h
    | some u =>
      rw [hs] at h
      simp only
      exact ih u h

/-- From a state that satisfies the invariant, some schedule runs until
`SearchDirectory` has returned. -/
theorem exists_run_to_return (env : Env) (visits : List Visit) (n : Nat) (s : State)
    (hI : Inv env visits s) (hn : workLeft env s ≤ n) :
    ∃ as t, exec env s as = some t ∧ (t.main = .returned ∨ t.main = .walkFailed) := by
  induction n generalizing s with
  | zero =>
    by_cases h1 : s.main = .returned
    · exact ⟨[], s, rfl, Or.inl h1⟩
    · by_cases h2 : s.main = .walkFailed
      · exact ⟨[], s, rfl, Or.inr h2⟩
      · obtain ⟨a, t, hst⟩ := progress env visits s hI h1 h2
        have := workLeft_step env visits s t a hst hI
        omega
  | succ n ih =>
    by_cases h1 : s.main = .returned
    · exact ⟨[], s, rfl, Or.inl h1⟩
    · by_cases h2 : s.main = .walkFailed
      · exact ⟨[], s, rfl, Or.inr h2⟩
      · obtain ⟨a, t, hst⟩ := progress env visits s hI h1 h2
        have hlt := workLeft_step env visits s t a hst hI
        obtain ⟨as, u, hex, hu⟩ := ih t (inv_step env visits s t a hst hI) (by omega)
        exact ⟨a :: as, u, by simp [exec, hst, hex], hu⟩

/-! ## Complete runs -/

theorem exec_final (env : Env) (s t : State) (as : List Action)
    (hs : s.main = .returned ∨ s.main = .walkFailed) (h : exec env s as = some t) : t = s := by
  cases as with
  | nil =>
    simp only [exec, Option.some.injEq] at h
    exact h.symm
  | cons a rest =>
    have : step env s a = none := by
      unfold step
      rw [if_pos hs]
      split <;> rfl
    simp [exec, this] at h

theorem firstWalk_ok_of_not_failed (env : Env) (dir pattern : String) (as : List Action)
    (s : State) (h : exec env (SearchDirectory env dir pattern) as = some s)
    (hr : s.main ≠ .walkFailed) : secondWalk env dir = env.walk 1 dir := by
  unfold secondWalk
  cases hc : countFiles (env.walk 0 dir) 0 with
  | ok n => rfl
  | error e =>
    have hinit : (SearchDirectory env dir pattern).main = .walkFailed := by
      simp [SearchDirectory, hc]
    have := exec_final env _ s as (Or.inr hinit) h
    rw [this] at hr
    exact absurd hinit hr

theorem firstWalk_ok_of_returned (env : Env) (dir pattern : String) (as : List Action)
    (s : State) (h : exec env (SearchDirectory env dir pattern) as = some s)
    (hr : s.main = .returned) : secondWalk env dir = env.walk 1 dir :=
  firstWalk_ok_of_not_failed env dir pattern as s h (by rw [hr]; simp)

/-- What the aggregator has received when `SearchDirectory` returns at its end: all
that the `CheckFile` goroutines of the qualifying files send, in some order. -/
theorem received_of_returned (env : Env) (dir pattern : String) (as : List Action)
    (s : State) (h : exec env (SearchDirectory env dir pattern) as = some s)
    (hr : s.main = .returned) :
    s.received.Perm
      ((spawnList (env.walk 1 dir)).flatMap fun f ↦ sends (CheckFile env f pattern)) := by
  obtain ⟨⟨hnp, hwg, hex, hpc, hsp, hperm, hout⟩, hpat⟩ := inv_reachable env dir pattern as s h
  rw [firstWalk_ok_of_returned env dir pattern as s h hr] at hsp
  simp only [PcInv, hr] at hpc
  simp only [visitsLeft, hr, spawnList, List.append_nil] at hsp
  have hall : ∀ w ∈ s.workers, w.pending = [] := by
    intro w hw
    exact hex w hw (running_eq_nil_of_length s.workers (by omega) w hw)
  have h0 : s.workers.flatMap (·.pending) = [] := by
    rw [List.flatMap_eq_nil_iff]
    exact hall
  rw [h0, List.append_nil, hpat] at hperm
  rw [← hsp, List.flatMap_map]
  exact hperm

/-- What the aggregator has printed when `SearchDirectory` returns at its end is, up
to order, what it prints when the files are scanned one after the other. -/
theorem stdout_of_returned (env : Env) (dir pattern : String) (as : List Action)
    (s : State) (h : exec env (SearchDirectory env dir pattern) as = some s)
    (hr : s.main = .returned) :
    s.stdout.Perm (sequentialOutput env pattern (spawnList (env.walk 1 dir))) := by
  have hout := (inv_reachable env dir pattern as s h).1.out
  rw [hout]
  exact (received_of_returned env dir pattern as s h hr).flatMap_right _

theorem stepAgg_main (s t : State) (h : stepAgg s = some t) : t.main = s.main := by
  unfold stepAgg at h
  repeat' split at h
  all_goals first | (simp at h; done) | (simp only [Option.some.injEq] at h; subst h; rfl)

theorem stepWorker_main (env : Env) (s t : State) (i : Nat) (h : stepWorker env s i = some t) :
    t.main = s.main := by
  unfold stepWorker at h
  repeat' split at h
  all_goals first | (simp at h; done) | (simp only [Option.some.injEq] at h; subst h; rfl)

/-- While no visit to come carries an error, the walk does not fail. -/
theorem noFail_step (env : Env) (s t : State) (a : Action) (h : step env s a = some t)
    (hs : s.main ≠ .walkFailed ∧ ∀ v ∈ visitsLeft s, v.err = none) :
    t.main ≠ .walkFailed ∧ ∀ v ∈ visitsLeft t, v.err = none := by
  unfold step at h
  split at h
  · simp at h
  · split at h
    · simp at h
    · cases a with
      | agg =>
        have := stepAgg_main s t h
        simp only [visitsLeft, this]
        exact hs
      | worker i =>
        have := stepWorker_main env s t i h
        simp only [visitsLeft, this]
        exact hs
      | main =>
        simp only at h
        unfold stepMain at h
        cases hm : s.main with
        | walking todo =>
          rw [hm] at h
          cases todo with
          | nil =>
            simp only [Option.some.injEq] at h
            subst h
            simp [visitsLeft]
          | cons v rest =>
            have hv : v.err = none := hs.2 v (by simp [visitsLeft, hm])
            have hrest : ∀ u ∈ rest, u.err = none := fun u hu ↦
              hs.2 u (by simp [visitsLeft, hm, hu])
            simp only [hv] at h
            by_cases hq : qualifies v = true
            · rw [if_pos hq] at h
              simp only [Option.some.injEq] at h
              subst h
              simpa [visitsLeft] using hrest
            · rw [if_neg hq] at h
              simp only [Option.some.injEq] at h
              subst h
              simpa [visitsLeft] using hrest
        | waiting =>
          rw [hm] at h
          by_cases hz : s.wg = 0
          · rw [if_pos hz] at h
            simp only [Option.some.injEq] at h
            subst h
            simp [visitsLeft]
          · simp [hz] at h
        | closing =>
          rw [hm] at h
          by_cases hz : s.closes = 0
          · rw [if_pos hz] at h
            simp only [Option.some.injEq] at h
            subst h
            simp [visitsLeft]
          · rw [if_neg hz] at h
            simp only [Option.some.injEq] at h
            subst h
            simp [visitsLeft, hm]
        | awaitingDone =>
          rw [hm] at h
          by_cases hz : s.agg = .signalling
          · rw [if_pos hz] at h
            simp only [Option.some.injEq] at h
            subst h
            simp [visitsLeft]
          · simp [hz] at h
        | returned => rw [hm] at h; simp at h
        | walkFailed => rw [hm] at h; simp at h

theorem noFail_exec (env : Env) (as : List Action) (s t : State) (h : exec env s as = some t)
    (hs : s.main ≠ .walkFailed ∧ ∀ v ∈ visitsLeft s, v.err = none) :
    t.main ≠ .walkFailed ∧ ∀ v ∈ visitsLeft t, v.err = none := by
  induction as generalizing s with
  | nil =>
    simp only [exec, Option.some.injEq] at h
    subst h
    exact hs
  | cons a rest ih =>
    simp only [exec] at h
    cases hst : step env s a with
    | none => rw [hst] at h; simp at h
    | some u =>
      rw [hst] at h
      exact ih u h (noFail_step env s u a hst hs)

theorem noFail_init (env : Env) (dir pattern : String) (hok : walkOk env dir) :
    (SearchDirectory env dir pattern).main ≠ .walkFailed ∧
      ∀ v ∈ visitsLeft (SearchDirectory env dir pattern), v.err = none := by
  obtain ⟨⟨n, hn⟩, hv⟩ := hok
  simp only [SearchDirectory, hn, visitsLeft]
  exact ⟨by simp, hv⟩

/-- When both walks go through, every run can be continued until `SearchDirectory`
returns at its end. -/
theorem exists_return (env : Env) (dir pattern : String) (as : List Action) (s : State)
    (h : exec env (SearchDirectory env dir pattern) as = some s) (hok : walkOk env dir) :
    ∃ bs t, exec env (SearchDirectory env dir pattern) (as ++ bs) = some t ∧
      t.main = .returned := by
  have hI := (inv_reachable env dir pattern as s h).1
  obtain ⟨bs, t, hex, ht⟩ := exists_run_to_return env _ (workLeft env s) s hI (le_refl _)
  refine ⟨bs, t, ?_, ?_⟩
  · rw [exec_append env _ s as bs h]
    exact hex
  · have h1 := noFail_exec env as _ s h (noFail_init env dir pattern hok)
    have h2 := noFail_exec env bs s t hex h1
    rcases ht with ht | ht
    · exact ht
    · exact absurd ht h2.1

/-! ## What the aggregator prints for what it receives -/

theorem checkFile_congr (env env' : Env) (filename pattern : String)
    (hc : env'.compile = env.compile) (ho : env'.osOpen filename = env.osOpen filename) :
    CheckFile env' filename pattern = CheckFile env filename pattern := by
  unfold CheckFile
  rw [hc, ho]

theorem aggregate_congr (env env' : Env) (hrel : env'.rel = env.rel) :
    aggregate env' = aggregate env := by
  funext r
  unfold aggregate relPath
  rw [hrel]

theorem sequentialOutput_congr (env env' : Env) (pattern : String) (files : List String)
    (hc : env'.compile = env.compile) (hrel : env'.rel = env.rel)
    (ho : ∀ f ∈ files, env'.osOpen f = env.osOpen f) :
    sequentialOutput env' pattern files = sequentialOutput env pattern files := by
  unfold sequentialOutput
  rw [aggregate_congr env env' hrel]
  congr 1
  induction files with
  | nil => rfl
  | cons f fs ih =>
    simp only [List.flatMap_cons]
    rw [checkFile_congr env env' f pattern hc (ho f (by simp)),
      ih (fun g hg ↦ ho g (List.mem_cons_of_mem _ hg))]

theorem sequentialOutput_append (env : Env) (pattern : String) (xs ys : List String) :
    sequentialOutput env pattern (xs ++ ys) =
      sequentialOutput env pattern xs ++ sequentialOutput env pattern ys := by
  simp [sequentialOutput]

/-- C3: with a pattern that compiles, a file that cannot be opened makes its
`CheckFile` send exactly one result, an error, and no match; every other file's
`CheckFile` does what it does in the world without that file, and the run prints, up to
order, what the run without the file prints and the one error line. -/
theorem unreadable_file_isolated (env env' : Env) (dir pattern bad e : String)
    (regex : String → Bool) (pre post : List String) (as as' : List Action) (s s' : State)
    (hP : env.compile pattern = .ok regex) (hbad : env.osOpen bad = .error e)
    (hfiles : spawnList (env.walk 1 dir) = pre ++ bad :: post)
    (hfiles' : spawnList (env'.walk 1 dir) = pre ++ post)
    (hc : env'.compile = env.compile) (hrel : env'.rel = env.rel)
    (hopen : ∀ f ∈ pre ++ post, env'.osOpen f = env.osOpen f)
    (h : exec env (SearchDirectory env dir pattern) as = some s) (hr : s.main = .returned)
    (h' : exec env' (SearchDirectory env' dir pattern) as' = some s')
    (hr' : s'.main = .returned) :
    sends (CheckFile env bad pattern) =
      [{ Filename := bad, LineNumber := 0, MatchedLine := "",
         Error := some ("error opening file: " ++ e) }] ∧
    matchesOf (sends (CheckFile env bad pattern)) = [] ∧
    (∀ f ∈ pre ++ post, CheckFile env f pattern = CheckFile env' f pattern) ∧
    s.stdout.Perm (Output.errorLine bad ("error opening file: " ++ e) :: s'.stdout) := by
  have hsend : sends (CheckFile env bad pattern) =
      [{ Filename := bad, LineNumber := 0, MatchedLine := "",
         Error := some ("error opening file: " ++ e) }] := by
    simp [CheckFile, hP, hbad, sends]
  refine ⟨hsend, ?_, ?_, ?_⟩
  · rw [hsend]
    simp [matchesOf]
  · intro f hf
    exact (checkFile_congr env env' f pattern hc (hopen f hf)).symm
  · have h1 := stdout_of_returned env dir pattern as s h hr
    have h2 := stdout_of_returned env' dir pattern as' s' h' hr'
    rw [hfiles] at h1
    rw [hfiles', sequentialOutput_congr env env' pattern (pre ++ post) hc hrel hopen] at h2
    have hone : sequentialOutput env pattern [bad] =
        [Output.errorLine bad ("error opening file: " ++ e)] := by
      simp [sequentialOutput, hsend, aggregate]
    have hsplit : sequentialOutput env pattern (pre ++ bad :: post) =
        sequentialOutput env pattern pre ++
          (Output.errorLine bad ("error opening file: " ++ e) ::
            sequentialOutput env pattern post) := by
      rw [show pre ++ bad :: post = pre ++ ([bad] ++ post) from rfl,
        sequentialOutput_append, sequentialOutput_append, hone]
      rfl
    rw [hsplit] at h1
    rw [sequentialOutput_append] at h2
    exact h1.trans (List.perm_middle.trans (List.Perm.cons _ h2.symm))

/-- The scenario with `b.txt` unreadable against the scenario without `b.txt`. -/
theorem unreadable_file_scenario :
    lockedEnv.compile "foo" = .ok (fun line ↦ contains "foo".data line.data) ∧
    lockedEnv.osOpen "b.txt" = .error "open b.txt: permission denied" ∧
    exec lockedEnv (SearchDirectory lockedEnv "." "foo") inOrderRun = some lockedEnd ∧
    exec aloneEnv (SearchDirectory aloneEnv "." "foo") singleRun = some aloneEnd ∧
    (sends (CheckFile lockedEnv "b.txt" "foo") =
        [{ Filename := "b.txt", LineNumber := 0, MatchedLine := "",
           Error := some ("error opening file: " ++ "open b.txt: permission denied") }] ∧
      matchesOf (sends (CheckFile lockedEnv "b.txt" "foo")) = [] ∧
      (∀ f ∈ ["a.txt"] ++ [], CheckFile lockedEnv f "foo" = CheckFile aloneEnv f "foo") ∧
      lockedEnd.stdout.Perm
        (Output.errorLine "b.txt" ("error opening file: " ++ "open b.txt: permission denied") ::
          aloneEnd.stdout)) :=
  ⟨rfl, rfl, by decide, by decide,
    unreadable_file_isolated lockedEnv aloneEnv "." "foo" "b.txt"
      "open b.txt: permission denied" (fun line ↦ contains "foo".data line.data)
      ["a.txt"] [] inOrderRun singleRun lockedEnd aloneEnd rfl rfl (by decide) (by decide)
      rfl rfl (by intro f hf; simp at hf; subst hf; rfl) (by decide) (by decide)
      (by decide) (by decide)⟩

/-- C4: whatever the order in which the goroutines take their steps, when
`SearchDirectory` returns at its end the aggregator has printed, up to order, exactly
what it prints when the files are scanned one at a time in sequence; so has it for the
match blocks alone. -/
theorem concurrent_output_eq_sequential (env : Env) (dir pattern : String)
    (as : List Action) (s : State)
    (h : exec env (SearchDirectory env dir pattern) as = some s) (hr : s.main = .returned) :
    s.stdout.Perm (sequentialOutput env pattern (spawnList (env.walk 1 dir))) ∧
    (s.stdout.filter isMatchBlock).Perm
      ((sequentialOutput env pattern (spawnList (env.walk 1 dir))).filter isMatchBlock) :=
  ⟨stdout_of_returned env dir pattern as s h hr,
    (stdout_of_returned env dir pattern as s h hr).filter _⟩

/-- The scenario with the second file's match reaching the aggregator first: the
output is that of the sequential scan in another order. -/
theorem crossed_run_eq_sequential :
    exec scenarioEnv (SearchDirectory scenarioEnv "." "foo") crossedRun =
      some scenarioCrossedEnd ∧
    scenarioCrossedEnd.stdout =
      [Output.matchBlock "b.txt" 1 "foobar", Output.matchBlock "a.txt" 2 "foo"] ∧
    sequentialOutput scenarioEnv "foo" (spawnList (scenarioEnv.walk 1 ".")) =
      [Output.matchBlock "a.txt" 2 "foo", Output.matchBlock "b.txt" 1 "foobar"] ∧
    (scenarioCrossedEnd.stdout.Perm
        (sequentialOutput scenarioEnv "foo" (spawnList (scenarioEnv.walk 1 "."))) ∧
      (scenarioCrossedEnd.stdout.filter isMatchBlock).Perm
        ((sequentialOutput scenarioEnv "foo" (spawnList (scenarioEnv.walk 1 "."))).filter
          isMatchBlock)) :=
  ⟨by decide, by decide, by decide,
    concurrent_output_eq_sequential scenarioEnv "." "foo" crossedRun scenarioCrossedEnd
      (by decide) (by decide)⟩

theorem closes_facts (env : Env) (visits : List Visit) (s : State) (hI : Inv env visits s) :
    s.closes ≤ 1 ∧ (s.closes = 1 → visitsLeft s = [] ∧ s.main ≠ .walkFailed ∧ s.wg = 0) ∧
      (s.main = .returned → s.closes = 1) ∧ (s.main = .walkFailed → s.closes = 0) := by
  have hpc := hI.pc
  unfold PcInv at hpc
  cases hm : s.main <;> simp only [hm] at hpc <;> simp [visitsLeft, hm] <;> omega

/-- C5 as stated fails: when the root directory does not exist the first walk
fails and `SearchDirectory` returns at once: the run has no further step and the channel
is never closed. -/
theorem walk_error_never_closes :
    (SearchDirectory scenarioEnv "missing" "foo").main = .walkFailed ∧
    (SearchDirectory scenarioEnv "missing" "foo").closes ≠ 1 ∧
    (∀ a, step scenarioEnv (SearchDirectory scenarioEnv "missing" "foo") a = none) ∧
    ∀ as s, exec scenarioEnv (SearchDirectory scenarioEnv "missing" "foo") as = some s →
      s.closes = 0 := by
  refine ⟨by decide, by decide, fun a ↦ rfl, ?_⟩
  intro as s h
  have := exec_final scenarioEnv _ s as (Or.inr (by decide)) h
  rw [this]
  decide

/-- C5, amended: in every state a run of `SearchDirectory` reaches: there was no
panic (no send on the closed channel, no second close, no negative wait-group counter);
the channel was closed at most once, and only after a goroutine was started on every
qualifying file and every one of them returned through `wg.Done()`; a goroutine that
returned has nothing left to send, and one that has something left to send finds the
channel open; when `SearchDirectory` returns at its end the channel was closed exactly
once and the aggregator has received, up to order, all that the goroutines send; when it
returns for a failed walk the channel was never closed; and when both walks go through,
the run can be continued until `SearchDirectory` returns at its end. -/
theorem channel_protocol (env : Env) (dir pattern : String) (as : List Action) (s : State)
    (h : exec env (SearchDirectory env dir pattern) as = some s) :
    s.panicked = false ∧
    s.closes ≤ 1 ∧
    (s.closes = 1 →
      s.workers.map (·.filename) = spawnList (env.walk 1 dir) ∧
      ∀ w ∈ s.workers, w.exited = true) ∧
    (∀ w ∈ s.workers, w.exited = true → w.pending = []) ∧
    (∀ w ∈ s.workers, w.pending ≠ [] → s.closes = 0) ∧
    (s.main = .returned →
      s.closes = 1 ∧
      s.received.Perm
        ((spawnList (env.walk 1 dir)).flatMap fun f ↦ sends (CheckFile env f pattern))) ∧
    (s.main = .walkFailed → s.closes = 0) ∧
    (walkOk env dir →
      ∃ bs t, exec env (SearchDirectory env dir pattern) (as ++ bs) = some t ∧
        t.main = .returned) := by
  have hI := (inv_reachable env dir pattern as s h).1
  obtain ⟨hle, hone, hret, hfail⟩ := closes_facts env _ s hI
  have hclosed : s.closes = 1 →
      s.workers.map (·.filename) = spawnList (env.walk 1 dir) ∧
      ∀ w ∈ s.workers, w.exited = true := by
    intro hc
    obtain ⟨hv, hnf, hwg⟩ := hone hc
    constructor
    · have := hI.spawned
      rw [hv, firstWalk_ok_of_not_failed env dir pattern as s h hnf] at this
      simpa [spawnList] using this
    · have := hI.wgCount
      exact running_eq_nil_of_length s.workers (by omega)
  refine ⟨hI.noPanic, hle, hclosed, hI.exitedDone, ?_, ?_, hfail, ?_⟩
  · intro w hw hp
    by_contra hc
    have hc1 : s.closes = 1 := by omega
    exact hp (hI.exitedDone w hw ((hclosed hc1).2 w hw))
  · intro hr
    exact ⟨hret hr, received_of_returned env dir pattern as s h hr⟩
  · intro hok
    exact exists_return env dir pattern as s h hok

/-- The scenario half way: both goroutines started, the second has sent its match, the
channel is open, the first still has its match to send. -/
theorem channel_protocol_scenario :
    exec scenarioEnv (SearchDirectory scenarioEnv "." "foo")
        [.main, .main, .main, .main, .worker 1] = some scenarioHalf ∧
    (scenarioHalf.panicked = false ∧
      scenarioHalf.closes ≤ 1 ∧
      (scenarioHalf.closes = 1 →
        scenarioHalf.workers.map (·.filename) = spawnList (scenarioEnv.walk 1 ".") ∧
        ∀ w ∈ scenarioHalf.workers, w.exited = true) ∧
      (∀ w ∈ scenarioHalf.workers, w.exited = true → w.pending = []) ∧
      (∀ w ∈ scenarioHalf.workers, w.pending ≠ [] → scenarioHalf.closes = 0) ∧
      (scenarioHalf.main = .returned →
        scenarioHalf.closes = 1 ∧
        scenarioHalf.received.Perm
          ((spawnList (scenarioEnv.walk 1 ".")).flatMap fun f ↦
            sends (CheckFile scenarioEnv f "foo"))) ∧
      (scenarioHalf.main = .walkFailed → scenarioHalf.closes = 0) ∧
      (walkOk scenarioEnv "." →
        ∃ bs t, exec scenarioEnv (SearchDirectory scenarioEnv "." "foo")
            ([.main, .main, .main, .main, .worker 1] ++ bs) = some t ∧
          t.main = .returned)) :=
  ⟨by decide,
    channel_protocol scenarioEnv "." "foo" [.main, .main, .main, .main, .worker 1]
      scenarioHalf (by decide)⟩

/-- C6 as stated fails: searching the directory `docs` from its parent, the match
in `docs/a.txt` is printed with the path `docs/a.txt`, while the path relative to the
search root is `a.txt`. -/
theorem match_path_not_relative_to_root :
    exec docsEnv (SearchDirectory docsEnv "docs" "foo") singleRun = some docsEnd ∧
    docsEnd.stdout = [Output.matchBlock "docs/a.txt" 1 "foo"] ∧
    rootRelPath docsEnv "docs" "docs/a.txt" = "a.txt" ∧
    docsEnd.stdout ≠
      [Output.matchBlock (rootRelPath docsEnv "docs" "docs/a.txt") 1 "foo"] := by
  decide

/-- C6, amended: for a received result without error and with a non-empty line, the
aggregator prints one block: `Match found in:` with the file path made relative to the
working directory `.` (the literal path when that fails), then `Line`, the line number
and the matched text. -/
theorem aggregate_match_block (env : Env) (r : MatchResult) (hE : r.Error = none)
    (hL : r.MatchedLine ≠ "") :
    aggregate env r =
      [Output.matchBlock (relPath env r.Filename) r.LineNumber r.MatchedLine] ∧
    (∀ p, env.rel "." r.Filename = .ok p → relPath env r.Filename = p) ∧
    (∀ e, env.rel "." r.Filename = .error e → relPath env r.Filename = r.Filename) ∧
    (Output.matchBlock (relPath env r.Filename) r.LineNumber r.MatchedLine).render =
      "\nMatch found in: " ++ relPath env r.Filename ++ "\nLine " ++
        toString r.LineNumber ++ ": " ++ r.MatchedLine ++ "\n" := by
  refine ⟨?_, ?_, ?_, rfl⟩
  · simp [aggregate, hE, hL]
  · intro p hp
    simp [relPath, hp]
  · intro e he
    simp [relPath, he]

/-- The match of `docs/a.txt`: the block shows `docs/a.txt`. -/
theorem aggregate_match_block_docs :
    aggregate docsEnv
        { Filename := "docs/a.txt", LineNumber := 1, MatchedLine := "foo", Error := none } =
      [Output.matchBlock "docs/a.txt" 1 "foo"] ∧
    (Output.matchBlock "docs/a.txt" 1 "foo").render =
      "\nMatch found in: docs/a.txt\nLine 1: foo\n" ∧
    docsEnv.rel "." "docs/a.txt" = .ok "docs/a.txt" :=
  ⟨(aggregate_match_block docsEnv
      { Filename := "docs/a.txt", LineNumber := 1, MatchedLine := "foo", Error := none }
      rfl (by decide)).1, by decide, rfl⟩

/-- C10: the aggregator prints nothing for a result without error whose line is
empty; so when the pattern matches the empty string and a file holds an empty line,
`CheckFile` sends a match result for that line, the aggregator prints nothing for it, and
no match block with an empty text is ever in the output of `SearchDirectory`. -/
theorem empty_match_prints_nothing (env : Env) (dir pattern filename : String)
    (regex : String → Bool) (file : Scanned) (n : Nat) (as : List Action) (s : State)
    (hP : env.compile pattern = .ok regex) (hF : env.osOpen filename = .ok file)
    (hn : file.lines[n]? = some "") (hm : regex "" = true)
    (h : exec env (SearchDirectory env dir pattern) as = some s) :
    (∀ r : MatchResult, r.Error = none → r.MatchedLine = "" → aggregate env r = []) ∧
    ({ Filename := filename, LineNumber := n + 1, MatchedLine := "", Error := none } :
        MatchResult) ∈ sends (CheckFile env filename pattern) ∧
    aggregate env { Filename := filename, LineNumber := n + 1, MatchedLine := "",
                    Error := none } = [] ∧
    ∀ p k, Output.matchBlock p k "" ∉ s.stdout := by
  have hagg : ∀ r : MatchResult, r.Error = none → r.MatchedLine = "" →
      aggregate env r = [] := by
    intro r hE hL
    simp [aggregate, hE, hL]
  refine ⟨hagg, ?_, hagg _ rfl rfl, ?_⟩
  · rw [sends_CheckFile_ok env filename pattern regex file hP hF, List.mem_append]
    left
    unfold matchResults
    simp only [List.mem_map, List.mem_filter]
    refine ⟨(n + 1, ""), ⟨?_, hm⟩, rfl⟩
    rw [List.mk_mem_enumFrom_iff_le_and_getElem?_sub]
    exact ⟨by omega, by simpa using hn⟩
  · intro p k hmem
    rw [(inv_reachable env dir pattern as s h).1.out, List.mem_flatMap] at hmem
    obtain ⟨r, _, hr⟩ := hmem
    unfold aggregate at hr
    cases hE : r.Error with
    | some e => simp [hE] at hr
    | none =>
      by_cases hL : r.MatchedLine = ""
      · simp [hE, hL] at hr
      · simp only [hE, ne_eq, hL, not_false_eq_true, if_true, List.mem_singleton,
          Output.matchBlock.injEq] at hr
        exact hL hr.2.2.symm

/-- The file that starts with an empty line, searched with the empty pattern: the
match of line 1 is sent and nothing is printed for it. -/
theorem empty_match_example :
    blankLineEnv.compile "" = .ok (fun line ↦ contains "".data line.data) ∧
    blankLineEnv.osOpen "a.txt" = .ok { lines := ["", "foo"], err := none } ∧
    exec blankLineEnv (SearchDirectory blankLineEnv "." "") doubleRun = some blankLineEnd ∧
    blankLineEnd.stdout = [Output.matchBlock "a.txt" 2 "foo"] ∧
    ((∀ r : MatchResult, r.Error = none → r.MatchedLine = "" →
        aggregate blankLineEnv r = []) ∧
      ({ Filename := "a.txt", LineNumber := 0 + 1, MatchedLine := "", Error := none } :
          MatchResult) ∈ sends (CheckFile blankLineEnv "a.txt" "") ∧
      aggregate blankLineEnv { Filename := "a.txt", LineNumber := 0 + 1, MatchedLine := "",
                               Error := none } = [] ∧
      ∀ p k, Output.matchBlock p k "" ∉ blankLineEnd.stdout) :=
  ⟨rfl, rfl, by decide, by decide,
    empty_match_prints_nothing blankLineEnv "." "" "a.txt"
      (fun line ↦ contains "".data line.data) { lines := ["", "foo"], err := none } 0
      doubleRun blankLineEnd rfl rfl rfl rfl (by decide)⟩

/-- The scenario's `a.txt` with the pattern `foo`: one match, on line 2. -/
theorem line_numbers_scenario :
    scenarioEnv.compile "foo" = .ok (fun line ↦ contains "foo".data line.data) ∧
    scenarioEnv.osOpen "a.txt" = .ok { lines := ["hello", "foo"], err := none } ∧
    matchesOf (sends (CheckFile scenarioEnv "a.txt" "foo")) =
      [{ Filename := "a.txt", LineNumber := 2, MatchedLine := "foo", Error := none }] ∧
    (((matchesOf (sends (CheckFile scenarioEnv "a.txt" "foo"))).map
        (·.LineNumber)).Pairwise (· < ·) ∧
      ∀ r ∈ matchesOf (sends (CheckFile scenarioEnv "a.txt" "foo")),
        1 ≤ r.LineNumber ∧
          (["hello", "foo"] : List String)[r.LineNumber - 1]? = some r.MatchedLine) :=
  ⟨rfl, rfl, by decide,
    checkFile_line_numbers_increasing scenarioEnv "a.txt" "foo"
      (fun line ↦ contains "foo".data line.data) { lines := ["hello", "foo"], err := none }
      rfl rfl⟩

/-- A scanner that fails after the lines `foo`, `bar`, with the pattern `foo`: the match
of line 1, then the read error. -/
theorem read_error_example :
    sends (CheckFile brokenEnv "a.txt" "foo") =
      [{ Filename := "a.txt", LineNumber := 1, MatchedLine := "foo", Error := none },
       { Filename := "a.txt", LineNumber := 0, MatchedLine := "",
         Error := some "error reading file: read a.txt: input/output error" }] ∧
    sends (CheckFile brokenEnv "a.txt" "foo") =
      matchResults "a.txt" (fun line ↦ contains "foo".data line.data) ["foo", "bar"] ++
        [readError "a.txt" "read a.txt: input/output error"] :=
  ⟨by decide,
    (checkFile_error_is_last brokenEnv "a.txt" "foo").2
      (fun line ↦ contains "foo".data line.data)
      { lines := ["foo", "bar"], err := some "read a.txt: input/output error" }
      "read a.txt: input/output error" rfl rfl rfl⟩

/-- The two results of the failing scanner: the first is a match, the second an
error. -/
theorem match_or_error_example :
    ({ Filename := "a.txt", LineNumber := 1, MatchedLine := "foo", Error := none } :
        MatchResult) ∈ sends (CheckFile brokenEnv "a.txt" "foo") ∧
    ((((none : Option String) = none ∧ 1 ≤ 1 ∧
          ∃ file, brokenEnv.osOpen "a.txt" = .ok file ∧ file.lines[1 - 1]? = some "foo") ∨
        ((none : Option String) ≠ none ∧ 1 = 0 ∧ "foo" = "")) ∧
      ¬ (((none : Option String) = none ∧ 1 ≤ 1) ∧
        ((none : Option String) ≠ none ∧ 1 = 0 ∧ "foo" = ""))) :=
  ⟨by decide,
    checkFile_match_or_error brokenEnv "a.txt" "foo"
      { Filename := "a.txt", LineNumber := 1, MatchedLine := "foo", Error := none }
      (by decide)⟩

end GoGrep
